import Mathlib

/-!
# LED strip driver (`lights.c`): bit-banged strip encoder and brightness mapping

A shallow embedding of `led_strip_write` (C wrapper plus its inline AVR assembly)
and of the sample-to-brightness arithmetic of `main`.

* The assembly is embedded instruction by instruction as state transformers on a
  machine state (temporary register, carry flag, pointer register pair, port and
  direction registers, global interrupt flag, a cycle counter and an event trace).
* `rcall`/`ret` are embedded structurally (a call runs the subroutine body, whose last
  instruction is `ret`); the skip branches `brcs .+2` / `brcc .+2` take the following
  one-word instruction as their argument.
* Cycle costs are the classic AVR ones: `sbi`/`cbi` 2, `rol`/`nop` 1, conditional
  branch 1 when not taken and 2 when taken, `rcall` 3, `ret` 4, `ld` 2, `rjmp` 2.
-/

namespace Lights

set_option maxRecDepth 1000000

/-! ## Configuration -/

/-- The values of `F_CPU` accepted by the preprocessor conditionals of
`send_led_strip_bit`; every other value stops the build at `#error`. -/
inductive Clock
  | mhz8
  | mhz16
  | mhz20
deriving DecidableEq

/-- Value of the `F_CPU` definition, in Hz. -/
def F_CPU : Clock → Nat
  | .mhz8 => 8000000
  | .mhz16 => 16000000
  | .mhz20 => 20000000

/-- Bit number of the strip's data line inside `LED_STRIP_PORT` / `LED_STRIP_DDR`. -/
def LED_STRIP_PIN : Nat := 4

/-- The `rgb_color` struct: three `unsigned char` fields. -/
structure rgb_color where
  red : Fin 256
  green : Fin 256
  blue : Fin 256
deriving DecidableEq

/-! ## Machine state and events -/

/-- Observable events of one run, in program order. `high t` / `low t` are the
completions of `sbi` / `cbi` at cycle `t`; `ld a` is a data-memory read at address `a`. -/
inductive Event
  | port_low
  | ddr_out
  | cli
  | sei
  | ld (addr : Nat)
  | high (t : Nat)
  | low (t : Nat)
  | delay_us (n : Nat)
deriving DecidableEq

/-- Machine state seen by `led_strip_write`. -/
structure State where
  /-- Register `__tmp_reg__` (8 bits). -/
  tmp : Nat
  /-- Carry flag of the status register. -/
  carry : Bool
  /-- Pointer register pair bound to operand `%a0` (16 bits). -/
  ptr : Nat
  /-- I/O register `LED_STRIP_PORT`. -/
  port : Nat
  /-- I/O register `LED_STRIP_DDR`. -/
  ddr : Nat
  /-- Global interrupt enable flag. -/
  iflag : Bool
  /-- Cycles spent so far in the embedded assembly instructions and in `_delay_us`; the
  compiled C statements around them are not charged. -/
  cycles : Nat
  /-- Events so far, oldest first. -/
  trace : List Event

/-- Data memory: one byte per address. -/
abbrev Mem := Nat → Fin 256

/-- Layout of the array `colors` at address `base`: element `k` occupies the three
bytes `base + 3k` (red), `base + 3k + 1` (green), `base + 3k + 2` (blue). Bytes outside
the array read as 0. -/
def colors_mem (base : Nat) (cs : List rgb_color) : Mem := fun a =>
  if a < base then 0
  else
    match cs[(a - base) / 3]? with
    | none => 0
    | some c =>
      if (a - base) % 3 = 0 then c.red
      else if (a - base) % 3 = 1 then c.green
      else c.blue

/-! ## Instructions -/

/-- Result register of `rol r` with incoming carry `c`. -/
def rol_value (r : Nat) (c : Bool) : Nat := (2 * r + (if c then 1 else 0)) % 256

/-- Outgoing carry of `rol r`: bit 7 of `r`. -/
def rol_carry (r : Nat) : Bool := decide (r / 128 % 2 = 1)

/-- Instruction `rol __tmp_reg__`: rotate left through carry, 1 cycle. -/
def rol (s : State) : State :=
  { s with tmp := rol_value s.tmp s.carry, carry := rol_carry s.tmp, cycles := s.cycles + 1 }

/-- Instruction `nop`, 1 cycle. -/
def nop (s : State) : State :=
  { s with cycles := s.cycles + 1 }

/-- Instruction `sbi %2, %3`: set the pin's port bit, 2 cycles. -/
def sbi (s : State) : State :=
  { s with port := s.port ||| (1 <<< LED_STRIP_PIN),
           cycles := s.cycles + 2,
           trace := s.trace ++ [Event.high (s.cycles + 2)] }

/-- Instruction `cbi %2, %3`: clear the pin's port bit, 2 cycles. -/
def cbi (s : State) : State :=
  { s with port := s.port &&& (0xFF ^^^ (1 <<< LED_STRIP_PIN)),
           cycles := s.cycles + 2,
           trace := s.trace ++ [Event.low (s.cycles + 2)] }

/-- Pair `brcs .+2` / `next`: when carry is set the branch is taken (2 cycles) and
`next` is skipped, otherwise the branch falls through (1 cycle) into `next`. -/
def brcs_skip (next : State → State) (s : State) : State :=
  if s.carry then { s with cycles := s.cycles + 2 }
  else next { s with cycles := s.cycles + 1 }

/-- Pair `brcc .+2` / `next`: when carry is clear the branch is taken (2 cycles) and
`next` is skipped, otherwise the branch falls through (1 cycle) into `next`. -/
def brcc_skip (next : State → State) (s : State) : State :=
  if s.carry then next { s with cycles := s.cycles + 1 }
  else { s with cycles := s.cycles + 2 }

/-- Instruction `ret`, 4 cycles. -/
def ret (s : State) : State :=
  { s with cycles := s.cycles + 4 }

/-- Instruction `rcall sub`, 3 cycles, followed by the subroutine up to its `ret`. -/
def rcall (sub : State → State) (s : State) : State :=
  sub { s with cycles := s.cycles + 3 }

/-- Instruction `rjmp`, 2 cycles. -/
def rjmp (s : State) : State :=
  { s with cycles := s.cycles + 2 }

/-- Instruction `ld __tmp_reg__, %a0+`: load, then increment the pointer. -/
def ld_postinc (mem : Mem) (s : State) : State :=
  { s with tmp := (mem s.ptr).val,
           ptr := (s.ptr + 1) % 65536,
           cycles := s.cycles + 2,
           trace := s.trace ++ [Event.ld s.ptr] }

/-- Instruction `ld __tmp_reg__, %a0`: load, pointer unchanged. -/
def ld_plain (mem : Mem) (s : State) : State :=
  { s with tmp := (mem s.ptr).val,
           cycles := s.cycles + 2,
           trace := s.trace ++ [Event.ld s.ptr] }

/-- Instruction `ld __tmp_reg__, -%a0`: decrement the pointer, then load. -/
def ld_predec (mem : Mem) (s : State) : State :=
  { s with tmp := (mem ((s.ptr + 65535) % 65536)).val,
           ptr := (s.ptr + 65535) % 65536,
           cycles := s.cycles + 2,
           trace := s.trace ++ [Event.ld ((s.ptr + 65535) % 65536)] }

/-! ## The assembly of `led_strip_write` -/

/-- Subroutine `send_led_strip_bit` after preprocessing for the clock class `f`. -/
def send_led_strip_bit (f : Clock) (s : State) : State :=
  let s := if F_CPU f = 8000000 then rol s else s
  let s := sbi s
  let s := if F_CPU f ≠ 8000000 then rol s else s
  let s :=
    if F_CPU f = 16000000 then nop (nop s)
    else if F_CPU f = 20000000 then nop (nop (nop (nop s)))
    else s
  let s := brcs_skip cbi s
  let s :=
    if F_CPU f = 8000000 then nop (nop s)
    else if F_CPU f = 16000000 then nop (nop (nop (nop (nop s))))
    else if F_CPU f = 20000000 then nop (nop (nop (nop (nop (nop (nop s))))))
    else s
  let s := brcc_skip cbi s
  ret s

/-- Subroutine `send_led_strip_byte`: eight calls of `send_led_strip_bit`, then `ret`. -/
def send_led_strip_byte (f : Clock) (s : State) : State :=
  let s := rcall (send_led_strip_bit f) s
  let s := rcall (send_led_strip_bit f) s
  let s := rcall (send_led_strip_bit f) s
  let s := rcall (send_led_strip_bit f) s
  let s := rcall (send_led_strip_bit f) s
  let s := rcall (send_led_strip_bit f) s
  let s := rcall (send_led_strip_bit f) s
  let s := rcall (send_led_strip_bit f) s
  ret s

/-- The `asm volatile` block in the loop body: one LED. -/
def led_strip_asm (mem : Mem) (f : Clock) (s : State) : State :=
  let s := ld_postinc mem s
  let s := ld_plain mem s
  let s := rcall (send_led_strip_byte f) s
  let s := ld_predec mem s
  let s := rcall (send_led_strip_byte f) s
  let s := ld_postinc mem s
  let s := ld_postinc mem s
  let s := ld_postinc mem s
  let s := rcall (send_led_strip_byte f) s
  rjmp s

/-- The loop `while(count--) { asm }`. -/
def led_strip_loop (mem : Mem) (f : Clock) : Nat → State → State
  | 0, s => s
  | n + 1, s => led_strip_loop mem f n (led_strip_asm mem f s)

/-- Function `led_strip_write(colors, count)`: `colors` is the address of the first
color, loaded into the pointer register pair. -/
def led_strip_write (mem : Mem) (f : Clock) (colors count : Nat) (s : State) : State :=
  let s := { s with port := s.port &&& (0xFF ^^^ (1 <<< LED_STRIP_PIN)),
                    trace := s.trace ++ [Event.port_low] }
  let s := { s with ddr := s.ddr ||| (1 <<< LED_STRIP_PIN),
                    trace := s.trace ++ [Event.ddr_out] }
  let s := { s with iflag := false, trace := s.trace ++ [Event.cli] }
  let s := led_strip_loop mem f count { s with ptr := colors }
  let s := { s with iflag := true, trace := s.trace ++ [Event.sei] }
  { s with cycles := s.cycles + 50 * (F_CPU f / 1000000),
           trace := s.trace ++ [Event.delay_us 50] }

/-! ## Brightness mapping of `main` -/

/-- Definition `MID`. -/
def MID : Nat := 660

/-- Macro `min(x,y)`: `((x<y)?x:y)`. -/
def min (x y : Nat) : Nat := if x < y then x else y

/-- Lines 184-185 of `main`: distance of the sample from `MID`, in 16-bit unsigned
arithmetic. -/
def aread_distance (aread : Nat) : Nat :=
  if aread < MID then (MID + 65536 - aread) % 65536
  else (aread + 65536 - MID) % 65536

/-- Line 187 of `main`: `min(aread >> 1, 0x00ff)`. -/
def aread_clip (aread : Nat) : Nat := min (aread >>> 1) 0x00ff

/-- Line 189 of `main`: `(aread * aread) / 0x00ff`, the product taken in 16 bits. -/
def aread_scale (aread : Nat) : Nat := ((aread * aread) % 65536) / 0x00ff

/-- Lines 184-189 of `main` on the `uint16_t` variable `aread`. -/
def brightness (aread : Nat) : Nat :=
  aread_scale (aread_clip (aread_distance aread))

/-- Store of `aread` into an `unsigned char` channel (lines 191-193). -/
def channel_value (aread : Nat) : Nat := brightness aread % 256

/-! ## Reading the waveform -/

/-- Waveform reading: the high time of every pulse, a `high` edge followed by the next `low`
edge, in cycles. -/
def pulses : List Event → List Nat
  | Event.high t1 :: Event.low t2 :: rest => (t2 - t1) :: pulses rest
  | _ :: rest => pulses rest
  | [] => []

/-- Events a run added to the trace between state `s` and the later state `s'`. -/
def emitted (s s' : State) : List Event := s'.trace.drop s.trace.length

/-- Sampling of the rising edges: the cycle of every `high` event. -/
def rises : List Event → List Nat
  | [] => []
  | Event.high t :: rest => t :: rises rest
  | _ :: rest => rises rest

/-- Addresses of the data-memory reads in a trace, in program order. -/
def loads : List Event → List Nat
  | [] => []
  | Event.ld a :: rest => a :: loads rest
  | _ :: rest => loads rest

/-- Events the inline assembly can produce: loads and pin edges. -/
def is_wave : Event → Bool
  | Event.ld _ => true
  | Event.high _ => true
  | Event.low _ => true
  | _ => false

/-- A machine state used for concrete evaluations: registers cleared, interrupts enabled,
empty trace. -/
def idle : State :=
  { tmp := 0, carry := false, ptr := 0, port := 0, ddr := 0, iflag := true, cycles := 0,
    trace := [] }

/-- Cycles from the start of one bit-slot (its `rcall`) to the start of the next. -/
def slot_period (f : Clock) (s : State) : Nat :=
  (rcall (send_led_strip_bit f) s).cycles - s.cycles

/-- High times of the 24 bit-slots one run of the assembly block sends. -/
def sent_wave (mem : Mem) (f : Clock) (s : State) : List Nat :=
  pulses (emitted s (led_strip_asm mem f s))

/-! ## Timing tables and the receiver side -/

/-- High time of a 0-bit, in cycles, per clock class. -/
def short_high : Clock → Nat
  | .mhz8 => 3
  | .mhz16 => 6
  | .mhz20 => 8

/-- High time of a 1-bit, in cycles, per clock class. -/
def long_high : Clock → Nat
  | .mhz8 => 7
  | .mhz16 => 13
  | .mhz20 => 17

/-- High time of a bit-slot carrying bit `b`. -/
def high_cycles (f : Clock) (b : Bool) : Nat := if b then long_high f else short_high f

/-- Length of a bit-slot, in cycles, per clock class. -/
def slot_cycles : Clock → Nat
  | .mhz8 => 17
  | .mhz16 => 22
  | .mhz20 => 26

/-- Cycles from the `rcall` of a bit-slot to its rising edge. -/
def rise_at : Clock → Nat
  | .mhz8 => 6
  | .mhz16 => 5
  | .mhz20 => 5

/-- Length of one call of `send_led_strip_byte`, in cycles. -/
def byte_cycles (f : Clock) : Nat := 3 + 8 * slot_cycles f + 4

/-- Length of one run of the assembly block, in cycles. -/
def led_cycles (f : Clock) : Nat := 14 + 3 * byte_cycles f

/-- The duration of `cycles` clock cycles lies within `pct` percent of the 1300 ns
reference period (duration in ns = `cycles * 10^9 / F_CPU`). -/
def within_percent (pct : Nat) (f : Clock) (cycles : Nat) : Prop :=
  (100 - pct) * 1300 * F_CPU f ≤ 100 * (cycles * 1000000000) ∧
    100 * (cycles * 1000000000) ≤ (100 + pct) * 1300 * F_CPU f

/-- Carries shifted out by `n` successive `rol`s of register value `r` with carry `c`. -/
def rol_bits : Nat → Nat → Bool → List Bool
  | 0, _, _ => []
  | n + 1, r, c => rol_carry r :: rol_bits n (rol_value r c) (rol_carry r)

/-- The eight bits of a byte, most significant first. -/
def bits_msb (v : Nat) : List Bool :=
  [decide (v / 128 % 2 = 1), decide (v / 64 % 2 = 1), decide (v / 32 % 2 = 1),
   decide (v / 16 % 2 = 1), decide (v / 8 % 2 = 1), decide (v / 4 % 2 = 1),
   decide (v / 2 % 2 = 1), decide (v % 2 = 1)]

/-- Value of a bit string read most significant bit first. -/
def byte_of_bits (bs : List Bool) : Nat :=
  bs.foldl (fun acc b => 2 * acc + (if b then 1 else 0)) 0

/-- Receiver: a slot reads 1 on the long high time, 0 on the short one. -/
def decode_slot (f : Clock) (h : Nat) : Option Bool :=
  if h = long_high f then some true
  else if h = short_high f then some false
  else none

/-- Receiver: a run of slots read bit by bit. -/
def decode_slots (f : Clock) : List Nat → Option (List Bool)
  | [] => some []
  | h :: hs =>
    match decode_slot f h, decode_slots f hs with
    | some b, some bs => some (b :: bs)
    | _, _ => none

/-- Receiver: a run of slots read as a number, most significant bit first. -/
def decode_byte (f : Clock) (hs : List Nat) : Option Nat :=
  (decode_slots f hs).map byte_of_bits

/-- High times of the eight slots of byte `v`. -/
def encode_byte (f : Clock) (v : Nat) : List Nat := (bits_msb v).map (high_cycles f)

/-- High times of the 24 slots the assembly block sends for a color: the byte at offset 1
(green), then the byte at offset 0 (red), then the byte at offset 2 (blue). -/
def encode_color (f : Clock) (c : rgb_color) : List Nat :=
  encode_byte f c.green.val ++ encode_byte f c.red.val ++ encode_byte f c.blue.val

/-- High times sent for a sequence of colors. -/
def encode_colors (f : Clock) : List rgb_color → List Nat
  | [] => []
  | c :: cs => encode_color f c ++ encode_colors f cs

/-- Addresses read by `n` runs of the assembly block starting at pointer `p`. -/
def color_loads : Nat → Nat → List Nat
  | _, 0 => []
  | p, n + 1 => [p, p + 1, p, p, p + 1, p + 2] ++ color_loads (p + 3) n

/-- Brightness mapping in the words of the specification: `floor(m*m / 255)` with
`m = min(floor(|x - 660| / 2), 255)`, in unbounded arithmetic. -/
def spec_brightness (x : Nat) : Nat :=
  let m := Nat.min (Int.natAbs ((x : Int) - 660) / 2) 255
  m * m / 255

/-- Receiver: the three groups of eight slots of one LED read in the order they are sent
(green, red, blue) and put back into a color. -/
def decode_color (f : Clock) (w : List Nat) : Option rgb_color :=
  match decode_byte f (w.take 8), decode_byte f ((w.drop 8).take 8),
      decode_byte f ((w.drop 16).take 8) with
  | some g, some r, some b => some { red := Fin.ofNat r, green := Fin.ofNat g, blue := Fin.ofNat b }
  | _, _, _ => none

/-- Events of a whole call of `led_strip_write`. -/
def write_events (mem : Mem) (f : Clock) (colors count : Nat) (s : State) : List Event :=
  emitted s (led_strip_write mem f colors count s)

/-! ## Event lists of the subroutines -/

/-- Edges of consecutive bit-slots carrying the bits `bs`, the first slot entered at
cycle `t`. -/
def slot_events (f : Clock) : Nat → List Bool → List Event
  | _, [] => []
  | t, b :: bs =>
    Event.high (t + rise_at f) :: Event.low (t + rise_at f + high_cycles f b) ::
      slot_events f (t + slot_cycles f) bs

/-- Events of one run of the assembly block entered at cycle `t` with pointer `p`. -/
def led_events (mem : Mem) (f : Clock) (t p : Nat) : List Event :=
  let p1 := (p + 1) % 65536
  let p2 := (p1 + 65535) % 65536
  let p3 := (p2 + 1) % 65536
  let p4 := (p3 + 1) % 65536
  [Event.ld p, Event.ld p1]
    ++ slot_events f (t + 7) (bits_msb (mem p1).val)
    ++ [Event.ld p2]
    ++ slot_events f (t + 9 + byte_cycles f) (bits_msb (mem p2).val)
    ++ [Event.ld p2, Event.ld p3, Event.ld p4]
    ++ slot_events f (t + 15 + 2 * byte_cycles f) (bits_msb (mem p4).val)

/-- Pointer after one run of the assembly block entered with pointer `p`. -/
def led_next_ptr (p : Nat) : Nat :=
  (((((p + 1) % 65536 + 65535) % 65536 + 1) % 65536 + 1) % 65536 + 1) % 65536

/-- Events of `n` loop iterations entered at cycle `t` with pointer `p`. -/
def loop_events (mem : Mem) (f : Clock) : Nat → Nat → Nat → List Event
  | 0, _, _ => []
  | n + 1, t, p => led_events mem f t p ++ loop_events mem f n (t + led_cycles f) (led_next_ptr p)


/-! ## Bit-slots and bytes -/

theorem call_bit_eq (f : Clock) (s : State) :
    rcall (send_led_strip_bit f) s =
      { s with tmp := rol_value s.tmp s.carry,
               carry := rol_carry s.tmp,
               port := (s.port ||| (1 <<< LED_STRIP_PIN)) &&& (0xFF ^^^ (1 <<< LED_STRIP_PIN)),
               cycles := s.cycles + slot_cycles f,
               trace := s.trace ++ [Event.high (s.cycles + rise_at f),
                 Event.low (s.cycles + rise_at f + high_cycles f (rol_carry s.tmp))] } := by
  cases f <;> cases h : rol_carry s.tmp <;>
    simp [rcall, send_led_strip_bit, F_CPU, rol, sbi, cbi, nop, brcs_skip, brcc_skip, ret, h,
      slot_cycles, rise_at, high_cycles, short_high, long_high, Nat.add_assoc]

theorem rol_bits_eight_lt : ∀ v, v < 256 →
    rol_bits 8 v true = bits_msb v ∧ rol_bits 8 v false = bits_msb v ∧
      byte_of_bits (bits_msb v) = v := by
  decide

theorem rol_bits_eight (v : Fin 256) (c : Bool) : rol_bits 8 v.val c = bits_msb v.val := by
  cases c
  · exact (rol_bits_eight_lt v.val v.isLt).2.1
  · exact (rol_bits_eight_lt v.val v.isLt).1

theorem slots_iterate (f : Clock) : ∀ (n : Nat) (s : State),
    ((rcall (send_led_strip_bit f))^[n] s).trace
        = s.trace ++ slot_events f s.cycles (rol_bits n s.tmp s.carry) ∧
    ((rcall (send_led_strip_bit f))^[n] s).cycles = s.cycles + n * slot_cycles f ∧
    ((rcall (send_led_strip_bit f))^[n] s).ptr = s.ptr ∧
    ((rcall (send_led_strip_bit f))^[n] s).ddr = s.ddr ∧
    ((rcall (send_led_strip_bit f))^[n] s).iflag = s.iflag := by
  intro n
  induction n with
  | zero => intro s; simp [rol_bits, slot_events]
  | succ n ih =>
    intro s
    rw [Function.iterate_succ_apply]
    obtain ⟨h1, h2, h3, h4, h5⟩ := ih (rcall (send_led_strip_bit f) s)
    rw [h1, h2, h3, h4, h5, call_bit_eq]
    simp [rol_bits, slot_events]
    ring

theorem send_led_strip_byte_iterate (f : Clock) (s : State) :
    send_led_strip_byte f s = ret ((rcall (send_led_strip_bit f))^[8] s) := rfl

theorem call_byte (f : Clock) (s : State) :
    (rcall (send_led_strip_byte f) s).trace
        = s.trace ++ slot_events f (s.cycles + 3) (rol_bits 8 s.tmp s.carry) ∧
    (rcall (send_led_strip_byte f) s).cycles = s.cycles + byte_cycles f ∧
    (rcall (send_led_strip_byte f) s).ptr = s.ptr ∧
    (rcall (send_led_strip_byte f) s).ddr = s.ddr ∧
    (rcall (send_led_strip_byte f) s).iflag = s.iflag := by
  obtain ⟨h1, h2, h3, h4, h5⟩ := slots_iterate f 8 { s with cycles := s.cycles + 3 }
  simp only [rcall, send_led_strip_byte_iterate, ret] at *
  refine ⟨h1, ?_, h3, h4, h5⟩
  rw [h2]; simp [byte_cycles]; ring

/-! ## One LED and the loop -/

theorem byte_trace (f : Clock) (s : State) : (rcall (send_led_strip_byte f) s).trace
    = s.trace ++ slot_events f (s.cycles + 3) (rol_bits 8 s.tmp s.carry) := (call_byte f s).1
theorem byte_cycles_eq (f : Clock) (s : State) :
    (rcall (send_led_strip_byte f) s).cycles = s.cycles + byte_cycles f := (call_byte f s).2.1
theorem byte_ptr (f : Clock) (s : State) :
    (rcall (send_led_strip_byte f) s).ptr = s.ptr := (call_byte f s).2.2.1
theorem byte_ddr (f : Clock) (s : State) :
    (rcall (send_led_strip_byte f) s).ddr = s.ddr := (call_byte f s).2.2.2.1
theorem byte_iflag (f : Clock) (s : State) :
    (rcall (send_led_strip_byte f) s).iflag = s.iflag := (call_byte f s).2.2.2.2

theorem led_strip_asm_run (mem : Mem) (f : Clock) (s : State) :
    (led_strip_asm mem f s).trace = s.trace ++ led_events mem f s.cycles s.ptr ∧
    (led_strip_asm mem f s).cycles = s.cycles + led_cycles f ∧
    (led_strip_asm mem f s).ptr = led_next_ptr s.ptr ∧
    (led_strip_asm mem f s).ddr = s.ddr ∧
    (led_strip_asm mem f s).iflag = s.iflag := by
  refine ⟨?_, ?_, ?_, ?_, ?_⟩
  · simp only [led_strip_asm, rjmp, byte_trace, byte_cycles_eq, byte_ptr, ld_postinc, ld_plain,
      ld_predec, rol_bits_eight, led_events, List.append_assoc]
    simp [Nat.add_assoc, Nat.add_comm, Nat.add_left_comm]
    congr 1; omega
  · simp only [led_strip_asm, rjmp, byte_cycles_eq, ld_postinc, ld_plain, ld_predec, led_cycles]
    ring
  · simp only [led_strip_asm, rjmp, byte_ptr, ld_postinc, ld_plain, ld_predec, led_next_ptr]
  · simp only [led_strip_asm, rjmp, byte_ddr, ld_postinc, ld_plain, ld_predec]
  · simp only [led_strip_asm, rjmp, byte_iflag, ld_postinc, ld_plain, ld_predec]

theorem led_strip_loop_run (mem : Mem) (f : Clock) : ∀ (n : Nat) (s : State),
    (led_strip_loop mem f n s).trace = s.trace ++ loop_events mem f n s.cycles s.ptr ∧
    (led_strip_loop mem f n s).cycles = s.cycles + n * led_cycles f ∧
    (led_strip_loop mem f n s).ptr = led_next_ptr^[n] s.ptr ∧
    (led_strip_loop mem f n s).ddr = s.ddr ∧
    (led_strip_loop mem f n s).iflag = s.iflag := by
  intro n
  induction n with
  | zero => intro s; simp [led_strip_loop, loop_events]
  | succ n ih =>
    intro s
    obtain ⟨h1, h2, h3, h4, h5⟩ := ih (led_strip_asm mem f s)
    obtain ⟨g1, g2, g3, g4, g5⟩ := led_strip_asm_run mem f s
    simp only [led_strip_loop, loop_events, Function.iterate_succ_apply]
    rw [h1, h2, h3, h4, h5, g1, g2, g3, g4, g5]
    refine ⟨by simp, by ring, rfl, rfl, rfl⟩

theorem led_strip_write_trace (mem : Mem) (f : Clock) (colors count : Nat) (s : State) :
    (led_strip_write mem f colors count s).trace
      = s.trace ++ ([Event.port_low, Event.ddr_out, Event.cli]
          ++ loop_events mem f count s.cycles colors ++ [Event.sei, Event.delay_us 50]) := by
  simp [led_strip_write, (led_strip_loop_run mem f count _).1]

theorem emitted_of_trace (s s' : State) (evs : List Event) (h : s'.trace = s.trace ++ evs) :
    emitted s s' = evs := by
  simp [emitted, h]

theorem led_strip_write_emitted (mem : Mem) (f : Clock) (colors count : Nat) (s : State) :
    emitted s (led_strip_write mem f colors count s)
      = [Event.port_low, Event.ddr_out, Event.cli]
          ++ loop_events mem f count s.cycles colors ++ [Event.sei, Event.delay_us 50] :=
  emitted_of_trace _ _ _ (led_strip_write_trace mem f colors count s)

/-! ## Reading traces -/

theorem pulses_ld (a : Nat) (r : List Event) : pulses (Event.ld a :: r) = pulses r := by
  simp [pulses]

theorem pulses_slot_events (f : Clock) (bs : List Bool) : ∀ (t : Nat) (r : List Event),
    pulses (slot_events f t bs ++ r) = bs.map (high_cycles f) ++ pulses r := by
  induction bs with
  | nil => intro t r; simp [slot_events]
  | cons b bs ih => intro t r; simp [slot_events, pulses, ih]

theorem loads_ld (a : Nat) (r : List Event) : loads (Event.ld a :: r) = a :: loads r := rfl

theorem loads_slot_events (f : Clock) (bs : List Bool) : ∀ (t : Nat) (r : List Event),
    loads (slot_events f t bs ++ r) = loads r := by
  induction bs with
  | nil => intro t r; simp [slot_events]
  | cons b bs ih => intro t r; simp [slot_events, loads, ih]

theorem is_wave_slot_events (f : Clock) (bs : List Bool) : ∀ (t : Nat),
    ∀ e ∈ slot_events f t bs, is_wave e = true := by
  induction bs with
  | nil => intro t e he; simp [slot_events] at he
  | cons b bs ih =>
    intro t e he
    simp only [slot_events, List.mem_cons] at he
    rcases he with he | he | he
    · rw [he]; rfl
    · rw [he]; rfl
    · exact ih _ e he

theorem pulses_led_events (mem : Mem) (f : Clock) (t p : Nat) (r : List Event)
    (hp : p + 3 < 65536) :
    pulses (led_events mem f t p ++ r)
      = encode_byte f (mem (p + 1)).val ++ encode_byte f (mem p).val
          ++ encode_byte f (mem (p + 2)).val ++ pulses r := by
  have h1 : (p + 1) % 65536 = p + 1 := Nat.mod_eq_of_lt (by omega)
  have h2 : (p + 1 + 65535) % 65536 = p := by omega
  have h3 : (p + 1 + 1) % 65536 = p + 2 := by omega
  simp only [led_events, h1, h2, h3, List.append_assoc, List.cons_append, List.nil_append,
    pulses_ld, pulses_slot_events, encode_byte]

theorem loads_led_events (mem : Mem) (f : Clock) (t p : Nat) (r : List Event)
    (hp : p + 3 < 65536) :
    loads (led_events mem f t p ++ r) = [p, p + 1, p, p, p + 1, p + 2] ++ loads r := by
  have h1 : (p + 1) % 65536 = p + 1 := Nat.mod_eq_of_lt (by omega)
  have h2 : (p + 1 + 65535) % 65536 = p := by omega
  have h3 : (p + 1 + 1) % 65536 = p + 2 := by omega
  simp only [led_events, h1, h2, h3, List.append_assoc, List.cons_append, List.nil_append,
    loads_ld, loads_slot_events]

theorem led_next_ptr_eq (p : Nat) (hp : p + 3 < 65536) : led_next_ptr p = p + 3 := by
  unfold led_next_ptr; omega

theorem is_wave_led_events (mem : Mem) (f : Clock) (t p : Nat) :
    ∀ e ∈ led_events mem f t p, is_wave e = true := by
  intro e he
  simp only [led_events, List.mem_append, List.mem_cons, List.mem_singleton,
    List.not_mem_nil, or_false] at he
  rcases he with ((((((he | he) | he) | he) | he) | (he | he | he)) | he)
  all_goals first
    | (rw [he]; rfl)
    | exact is_wave_slot_events f _ _ e he

theorem is_wave_loop_events (mem : Mem) (f : Clock) : ∀ (n t p : Nat),
    ∀ e ∈ loop_events mem f n t p, is_wave e = true := by
  intro n
  induction n with
  | zero => intro t p e he; simp [loop_events] at he
  | succ n ih =>
    intro t p e he
    simp only [loop_events, List.mem_append] at he
    rcases he with he | he
    · exact is_wave_led_events mem f t p e he
    · exact ih _ _ e he

theorem colors_mem_at (base : Nat) (cs : List rgb_color) (k : Nat) (c : rgb_color)
    (h : cs[k]? = some c) :
    colors_mem base cs (base + 3 * k) = c.red ∧
    colors_mem base cs (base + 3 * k + 1) = c.green ∧
    colors_mem base cs (base + 3 * k + 2) = c.blue := by
  have e0 : (base + 3 * k - base) / 3 = k := by omega
  have e1 : (base + 3 * k + 1 - base) / 3 = k := by omega
  have e2 : (base + 3 * k + 2 - base) / 3 = k := by omega
  have m0 : (base + 3 * k - base) % 3 = 0 := by omega
  have m1 : (base + 3 * k + 1 - base) % 3 = 1 := by omega
  have m2 : (base + 3 * k + 2 - base) % 3 = 2 := by omega
  have n0 : ¬ base + 3 * k < base := by omega
  have n1 : ¬ base + 3 * k + 1 < base := by omega
  have n2 : ¬ base + 3 * k + 2 < base := by omega
  refine ⟨?_, ?_, ?_⟩
  · simp [colors_mem, e0, m0, h]
  · simp only [colors_mem, e1, m1, h, n1]; simp
  · simp only [colors_mem, e2, m2, h, n2]; simp

theorem loop_events_buffer (f : Clock) (base : Nat) (cs : List rgb_color)
    (hfit : base + 3 * cs.length < 65536) : ∀ (n k t : Nat) (r : List Event),
    k + n ≤ cs.length →
    pulses (loop_events (colors_mem base cs) f n t (base + 3 * k) ++ r)
      = encode_colors f ((cs.drop k).take n) ++ pulses r ∧
    loads (loop_events (colors_mem base cs) f n t (base + 3 * k) ++ r)
      = color_loads (base + 3 * k) n ++ loads r ∧
    led_next_ptr^[n] (base + 3 * k) = base + 3 * (k + n) := by
  intro n
  induction n with
  | zero => intro k t r _; simp [loop_events, encode_colors, color_loads]
  | succ n ih =>
    intro k t r hk
    have hlt : k < cs.length := by omega
    have hp : base + 3 * k + 3 < 65536 := by omega
    obtain ⟨i1, i2, i3⟩ := ih (k + 1) (t + led_cycles f) r (by omega)
    have hnext : led_next_ptr (base + 3 * k) = base + 3 * (k + 1) := by
      rw [led_next_ptr_eq _ hp]; ring
    obtain ⟨c0, c1, c2⟩ := colors_mem_at base cs k cs[k] (List.getElem?_eq_getElem hlt)
    refine ⟨?_, ?_, ?_⟩
    · rw [List.drop_eq_getElem_cons hlt, List.take_succ_cons]
      simp only [loop_events, List.append_assoc, encode_colors, encode_color]
      rw [pulses_led_events _ _ _ _ _ hp, hnext, i1, c0, c1, c2]
      simp
    · simp only [loop_events, List.append_assoc, color_loads]
      rw [loads_led_events _ _ _ _ _ hp, hnext, i2]
      have : base + 3 * k + 3 = base + 3 * (k + 1) := by ring
      rw [this]
    · rw [Function.iterate_succ_apply, hnext, i3]; ring

theorem color_loads_bound : ∀ (n p a : Nat), a ∈ color_loads p n → p ≤ a ∧ a < p + 3 * n := by
  intro n
  induction n with
  | zero => intro p a h; simp [color_loads] at h
  | succ n ih =>
    intro p a h
    simp only [color_loads, List.mem_append, List.mem_cons, List.not_mem_nil, or_false] at h
    rcases h with (h | h | h | h | h | h) | h
    any_goals omega
    have := ih _ _ h
    omega

theorem length_encode_color (f : Clock) (c : rgb_color) : (encode_color f c).length = 24 := by
  simp [encode_color, encode_byte, bits_msb]

theorem length_encode_colors (f : Clock) : ∀ cs : List rgb_color,
    (encode_colors f cs).length = 24 * cs.length := by
  intro cs
  induction cs with
  | nil => rfl
  | cons c cs ih => simp [encode_colors, length_encode_color, ih]; ring

theorem encode_colors_group (f : Clock) : ∀ (cs : List rgb_color) (k : Nat) (c : rgb_color),
    cs[k]? = some c → ((encode_colors f cs).drop (24 * k)).take 24 = encode_color f c := by
  intro cs
  induction cs with
  | nil => intro k c h; simp at h
  | cons c0 cs ih =>
    intro k c h
    cases k with
    | zero =>
      simp at h
      subst h
      simp only [encode_colors, Nat.mul_zero, List.drop_zero]
      exact List.take_left' (length_encode_color f c0)
    | succ k =>
      simp at h
      have e : 24 * (k + 1) = (encode_color f c0).length + 24 * k := by
        rw [length_encode_color]; ring
      simp only [encode_colors]
      rw [e, List.drop_append]
      exact ih k c h



theorem length_encode_byte (f : Clock) (v : Nat) : (encode_byte f v).length = 8 := by
  simp [encode_byte, bits_msb]

theorem length_pulses_led_events (mem : Mem) (f : Clock) (t p : Nat) (r : List Event) :
    (pulses (led_events mem f t p ++ r)).length = 24 + (pulses r).length := by
  simp only [led_events, List.append_assoc, List.cons_append, List.nil_append,
    pulses_ld, pulses_slot_events, List.length_append, List.length_map]
  simp [bits_msb]
  omega

theorem length_pulses_loop_events (mem : Mem) (f : Clock) : ∀ (n t p : Nat) (r : List Event),
    (pulses (loop_events mem f n t p ++ r)).length = 24 * n + (pulses r).length := by
  intro n
  induction n with
  | zero => intro t p r; simp [loop_events]
  | succ n ih =>
    intro t p r
    simp only [loop_events, List.append_assoc]
    rw [length_pulses_led_events, ih]
    ring

theorem count_eq_zero_of_wave (l : List Event) (h : ∀ e ∈ l, is_wave e = true) (a : Event)
    (ha : is_wave a = false) : l.count a = 0 := by
  rw [List.count_eq_zero]
  intro hm
  rw [h a hm] at ha
  exact Bool.noConfusion ha

/-! ## Claims -/

theorem slot_period_eq (f : Clock) (s : State) : slot_period f s = slot_cycles f := by
  simp [slot_period, call_bit_eq]

theorem slot_pulse (f : Clock) (s : State) :
    pulses (emitted s (rcall (send_led_strip_bit f) s)) = [high_cycles f (rol_carry s.tmp)] := by
  rw [emitted_of_trace s _ _ (by rw [call_bit_eq])]
  simp [pulses]

theorem short_lt_long (f : Clock) : short_high f < long_high f := by
  cases f <;> decide

/-- C6: in every clock class the bit-slot (call and return included) takes the same number of
cycles in any two states, so whether the bit sent is 0 or 1; its single pulse has the
class's long high time when the bit sent is 1 and the short one when it is 0, the short
one is strictly shorter, and the low phase is the rest of the slot. -/
theorem bit_slot_total_independent_of_bit (f : Clock) (s0 s1 : State) :
    slot_period f s0 = slot_period f s1 ∧
    pulses (emitted s0 (rcall (send_led_strip_bit f) s0))
      = [if rol_carry s0.tmp then long_high f else short_high f] ∧
    (rcall (send_led_strip_bit f) s0).carry = rol_carry s0.tmp ∧
    short_high f < long_high f ∧
    long_high f < slot_period f s0 := by
  refine ⟨by rw [slot_period_eq, slot_period_eq], ?_, by rw [call_bit_eq], short_lt_long f, ?_⟩
  · rw [slot_pulse]; rfl
  · rw [slot_period_eq]; cases f <;> decide

/-- C7: at 20 MHz a bit-slot holds the line high for 8 cycles (400 ns) when the bit is 0 and
for 17 cycles (850 ns) when it is 1; a slot takes 26 cycles (1300 ns), and the eight rising
edges inside a byte are 26 cycles apart. -/
theorem timing_at_20mhz (s : State) :
    pulses (emitted s (rcall (send_led_strip_bit Clock.mhz20) s))
      = [if rol_carry s.tmp then 17 else 8] ∧
    slot_period Clock.mhz20 s = 26 ∧
    rises (emitted s (send_led_strip_byte Clock.mhz20 s))
      = (List.range 8).map (fun k => s.cycles + 5 + 26 * k) ∧
    8 * 1000000000 = 400 * F_CPU Clock.mhz20 ∧
    17 * 1000000000 = 850 * F_CPU Clock.mhz20 ∧
    26 * 1000000000 = 1300 * F_CPU Clock.mhz20 := by
  refine ⟨?_, ?_, ?_, by decide, by decide, by decide⟩
  · rw [slot_pulse]; cases rol_carry s.tmp <;> rfl
  · rw [slot_period_eq]; rfl
  · rw [emitted_of_trace s _ _ (by rw [send_led_strip_byte_iterate]; exact (slots_iterate _ 8 s).1)]
    simp [rol_bits, slot_events, rises, rise_at, slot_cycles, List.range, List.range.loop,
      Nat.add_assoc]

/-- C5, refuted as stated: at 8 MHz the bit-slot (17 cycles, 2125 ns) is not within 5% of the
1300 ns reference period. -/
theorem slot_8mhz_outside_tolerance :
    ¬ within_percent 5 Clock.mhz8 (slot_period Clock.mhz8 idle) := by
  rw [slot_period_eq]
  simp [within_percent, slot_cycles, F_CPU]

/-- C5, amended: whatever the state and the bit, a bit-slot takes 17 cycles at 8 MHz
(2125 ns), 22 cycles at 16 MHz (1375 ns) and 26 cycles at 20 MHz (1300 ns); the 20 MHz slot
is within 5% of the 1300 ns reference, the 16 MHz slot within 6% but not 5%. -/
theorem slot_duration_per_class (s : State) :
    slot_period Clock.mhz8 s = 17 ∧ 17 * 1000000000 = 2125 * F_CPU Clock.mhz8 ∧
    slot_period Clock.mhz16 s = 22 ∧ 22 * 1000000000 = 1375 * F_CPU Clock.mhz16 ∧
    slot_period Clock.mhz20 s = 26 ∧ 26 * 1000000000 = 1300 * F_CPU Clock.mhz20 ∧
    within_percent 5 Clock.mhz20 (slot_period Clock.mhz20 s) ∧
    within_percent 6 Clock.mhz16 (slot_period Clock.mhz16 s) ∧
    ¬ within_percent 5 Clock.mhz16 (slot_period Clock.mhz16 s) := by
  simp [slot_period_eq, within_percent, slot_cycles, F_CPU]

/-- C3: the events of a call are the pin set-up, `cli`, then only loads and pin edges,
then `sei` and the reset delay; `sei` occurs exactly once, and the interrupt flag ends set. -/
theorem interrupts_masked_during_transmission (mem : Mem) (f : Clock) (colors count : Nat)
    (s : State) :
    (∃ body : List Event,
      emitted s (led_strip_write mem f colors count s)
        = [Event.port_low, Event.ddr_out, Event.cli] ++ body
            ++ [Event.sei, Event.delay_us 50] ∧
      (∀ e ∈ body, is_wave e = true) ∧
      (pulses body).length = 24 * count) ∧
    (emitted s (led_strip_write mem f colors count s)).count Event.sei = 1 ∧
    (emitted s (led_strip_write mem f colors count s)).count Event.cli = 1 ∧
    (led_strip_write mem f colors count s).iflag = true := by
  have hw := is_wave_loop_events mem f count s.cycles colors
  have hs := count_eq_zero_of_wave _ hw Event.sei rfl
  have hc := count_eq_zero_of_wave _ hw Event.cli rfl
  rw [led_strip_write_emitted]
  refine ⟨⟨_, rfl, hw, ?_⟩, ?_, ?_, ?_⟩
  · have := length_pulses_loop_events mem f count s.cycles colors []
    simpa [pulses] using this
  · simp [List.count_append, hs, List.count_cons]
  · simp [List.count_append, hc, List.count_cons]
  · simp [led_strip_write]

/-- C4: with `count = 0` the call emits exactly the pin set-up, `cli`, `sei` and the 50
microsecond delay: no pin edge and no load; the pin's port bit ends cleared and its direction
bit set. -/
theorem count_zero_only_reset (mem : Mem) (f : Clock) (colors : Nat) (s : State) :
    emitted s (led_strip_write mem f colors 0 s)
      = [Event.port_low, Event.ddr_out, Event.cli, Event.sei, Event.delay_us 50] ∧
    rises (emitted s (led_strip_write mem f colors 0 s)) = [] ∧
    loads (emitted s (led_strip_write mem f colors 0 s)) = [] ∧
    (led_strip_write mem f colors 0 s).port.testBit LED_STRIP_PIN = false ∧
    (led_strip_write mem f colors 0 s).ddr.testBit LED_STRIP_PIN = true ∧
    (led_strip_write mem f colors 0 s).iflag = true := by
  have h : emitted s (led_strip_write mem f colors 0 s)
      = [Event.port_low, Event.ddr_out, Event.cli, Event.sei, Event.delay_us 50] := by
    rw [led_strip_write_emitted]; rfl
  refine ⟨h, by rw [h]; rfl, by rw [h]; rfl, ?_, ?_, ?_⟩
  · simp [led_strip_write, led_strip_loop, LED_STRIP_PIN, Nat.testBit_and]
    intro _; decide
  · simp [led_strip_write, led_strip_loop, LED_STRIP_PIN, Nat.testBit_or]
    right; decide
  · simp [led_strip_write, led_strip_loop]


theorem decode_slot_high_cycles (f : Clock) (b : Bool) :
    decode_slot f (high_cycles f b) = some b := by
  cases f <;> cases b <;> decide

theorem decode_slots_map (f : Clock) : ∀ bs : List Bool,
    decode_slots f (bs.map (high_cycles f)) = some bs := by
  intro bs
  induction bs with
  | nil => rfl
  | cons b bs ih => simp [decode_slots, decode_slot_high_cycles, ih]

theorem decode_encode_byte (f : Clock) (v : Fin 256) :
    decode_byte f (encode_byte f v.val) = some v.val := by
  simp [decode_byte, encode_byte, decode_slots_map, (rol_bits_eight_lt v.val v.isLt).2.2]

theorem sent_wave_eq (mem : Mem) (f : Clock) (s : State) (hp : s.ptr + 3 < 65536) :
    sent_wave mem f s
      = encode_byte f (mem (s.ptr + 1)).val ++ encode_byte f (mem s.ptr).val
          ++ encode_byte f (mem (s.ptr + 2)).val := by
  unfold sent_wave
  rw [emitted_of_trace s _ _ (led_strip_asm_run mem f s).1]
  have := pulses_led_events mem f s.cycles s.ptr [] hp
  simpa [pulses] using this

theorem sent_wave_color (f : Clock) (c : rgb_color) (s : State) (hp : s.ptr + 3 < 65536) :
    sent_wave (colors_mem s.ptr [c]) f s = encode_color f c := by
  obtain ⟨h0, h1, h2⟩ := colors_mem_at s.ptr [c] 0 c rfl
  simp only [Nat.mul_zero, Nat.add_zero] at h0 h1 h2
  rw [sent_wave_eq _ _ _ hp, h0, h1, h2]
  rfl

theorem encode_color_groups (f : Clock) (c : rgb_color) :
    (encode_color f c).take 8 = encode_byte f c.green.val ∧
    ((encode_color f c).drop 8).take 8 = encode_byte f c.red.val ∧
    ((encode_color f c).drop 16).take 8 = encode_byte f c.blue.val := by
  simp [encode_color, encode_byte, bits_msb]

theorem fin_ofNat_val (v : Fin 256) : (Fin.ofNat v.val : Fin 256) = v := by
  apply Fin.ext
  simp [Fin.ofNat, Nat.mod_eq_of_lt v.isLt]

/-- C2: for every color stored at the pointer, every clock class and every entry state (so
either carry value), the 24 high times sent decode, with long = 1 and short = 0 and short
strictly below long, group by group and most significant bit first, to the green, red and
blue bytes of the color, so the color is recovered. -/
theorem color_round_trip (f : Clock) (c : rgb_color) (s : State) (hp : s.ptr + 3 < 65536) :
    short_high f < long_high f ∧
    (sent_wave (colors_mem s.ptr [c]) f s).length = 24 ∧
    decode_byte f ((sent_wave (colors_mem s.ptr [c]) f s).take 8) = some c.green.val ∧
    decode_byte f (((sent_wave (colors_mem s.ptr [c]) f s).drop 8).take 8) = some c.red.val ∧
    decode_byte f (((sent_wave (colors_mem s.ptr [c]) f s).drop 16).take 8)
      = some c.blue.val ∧
    decode_color f (sent_wave (colors_mem s.ptr [c]) f s) = some c := by
  obtain ⟨g1, g2, g3⟩ := encode_color_groups f c
  rw [sent_wave_color f c s hp]
  refine ⟨short_lt_long f, length_encode_color f c, ?_, ?_, ?_, ?_⟩
  · rw [g1, decode_encode_byte]
  · rw [g2, decode_encode_byte]
  · rw [g3, decode_encode_byte]
  · simp only [decode_color, g1, g2, g3, decode_encode_byte, fin_ofNat_val]

/-- Witness of C2: pure red at address 0, 8 MHz, from the idle state. -/
theorem color_round_trip_witness :
    idle.ptr + 3 < 65536 ∧
    decode_color Clock.mhz8
      (sent_wave (colors_mem idle.ptr [{ red := 255, green := 0, blue := 0 }]) Clock.mhz8 idle)
      = some { red := 255, green := 0, blue := 0 } :=
  ⟨by decide,
    (color_round_trip Clock.mhz8 { red := 255, green := 0, blue := 0 } idle
      (by decide)).2.2.2.2.2⟩

/-- C1, evaluated: for the color (255, 0, 0) at 8 MHz the first eight slots are short
(they carry the green byte 0) and the next eight are long (the red byte 255). -/
theorem pure_red_sends_green_byte_first :
    sent_wave (colors_mem 0 [{ red := 255, green := 0, blue := 0 }]) Clock.mhz8 idle
      = [3, 3, 3, 3, 3, 3, 3, 3, 7, 7, 7, 7, 7, 7, 7, 7, 3, 3, 3, 3, 3, 3, 3, 3] ∧
    decode_byte Clock.mhz8
      ((sent_wave (colors_mem 0 [{ red := 255, green := 0, blue := 0 }]) Clock.mhz8 idle).take 8)
      = some 0 := by
  decide


theorem aread_distance_eq (x : Nat) (hx : x < 65536) :
    aread_distance x = Int.natAbs ((x : Int) - 660) := by
  unfold aread_distance MID
  split <;> omega

theorem aread_clip_eq (a : Nat) : aread_clip a = Nat.min (a / 2) 255 := by
  unfold aread_clip min
  rw [Nat.shiftRight_eq_div_pow]
  simp only [Nat.pow_one]
  split
  · exact (Nat.min_eq_left (by omega)).symm
  · exact (Nat.min_eq_right (by omega)).symm

theorem aread_clip_le (a : Nat) : aread_clip a ≤ 255 := by
  rw [aread_clip_eq]; exact Nat.min_le_right _ _

theorem clip_square_lt (a : Nat) : aread_clip a * aread_clip a < 65536 := by
  have h := aread_clip_le a
  have : aread_clip a * aread_clip a ≤ 255 * 255 := Nat.mul_le_mul h h
  omega

/-- C10: for every 16-bit sample the mapping of `main` equals `floor(m*m/255)` with
`m = min(floor(|x - 660| / 2), 255)`; the 16-bit subtraction gives the true distance, the
product stays below 65536, the result is at most 255 and the 8-bit store keeps it. -/
theorem brightness_matches_spec (x : Nat) (hx : x < 65536) :
    brightness x = spec_brightness x ∧
    aread_distance x = Int.natAbs ((x : Int) - 660) ∧
    aread_clip (aread_distance x) * aread_clip (aread_distance x) < 65536 ∧
    brightness x ≤ 255 ∧
    channel_value x = brightness x := by
  have hd := aread_distance_eq x hx
  have hsq := clip_square_lt (aread_distance x)
  have hle := aread_clip_le (aread_distance x)
  have hb : brightness x
      = aread_clip (aread_distance x) * aread_clip (aread_distance x) / 255 := by
    simp only [brightness, aread_scale]
    rw [Nat.mod_eq_of_lt hsq]
  have hb255 : brightness x ≤ 255 := by
    rw [hb]
    have : aread_clip (aread_distance x) * aread_clip (aread_distance x) ≤ 255 * 255 :=
      Nat.mul_le_mul hle hle
    omega
  refine ⟨?_, hd, hsq, hb255, ?_⟩
  · rw [hb, aread_clip_eq, hd]; rfl
  · unfold channel_value; omega

/-- Witness of C10: the largest 10-bit sample. -/
theorem brightness_matches_spec_witness :
    1023 < 65536 ∧
    brightness 1023 = spec_brightness 1023 ∧
    aread_distance 1023 = Int.natAbs ((1023 : Int) - 660) ∧
    aread_clip (aread_distance 1023) * aread_clip (aread_distance 1023) < 65536 ∧
    brightness 1023 ≤ 255 ∧
    channel_value 1023 = brightness 1023 :=
  ⟨by decide, brightness_matches_spec 1023 (by decide)⟩

/-- C8: samples at equal distance below and above `MID = 660` get the same channel value,
and the sample 660 gets 0. -/
theorem brightness_symmetric (d : Nat) (h1 : d ≤ 660) (_h2 : 660 + d ≤ 65535) :
    channel_value (MID - d) = channel_value (MID + d) ∧ channel_value MID = 0 := by
  have e : aread_distance (MID - d) = aread_distance (MID + d) := by
    unfold aread_distance MID
    split <;> split <;> omega
  refine ⟨?_, by decide⟩
  simp only [channel_value, brightness, e]

/-- Witness of C8: distance 100. -/
theorem brightness_symmetric_witness :
    100 ≤ 660 ∧ 660 + 100 ≤ 65535 ∧
    channel_value (MID - 100) = channel_value (MID + 100) ∧ channel_value MID = 0 :=
  ⟨by decide, by decide, brightness_symmetric 100 (by decide) (by decide)⟩

/-- C9: for a buffer `cs` at `base` inside the 16-bit address space and `count` at most its
length, the call sends `24 * count` slots, namely the encodings of `cs[0]`, ..., `cs[count-1]`
in this order, the `k`-th group of 24 being the encoding of `cs[k]`; iteration `k` reads only
the three bytes of `cs[k]`, every read falls inside the first `count` colors, and `k`
iterations leave the pointer at `base + 3 * k`. -/
theorem led_strip_write_sends_buffer (f : Clock) (base : Nat) (cs : List rgb_color)
    (count : Nat) (s : State) (hc : count ≤ cs.length) (hfit : base + 3 * cs.length < 65536) :
    pulses (write_events (colors_mem base cs) f base count s)
      = encode_colors f (cs.take count) ∧
    (pulses (write_events (colors_mem base cs) f base count s)).length = 24 * count ∧
    (∀ k c, k < count → cs[k]? = some c →
      ((pulses (write_events (colors_mem base cs) f base count s)).drop (24 * k)).take 24
        = encode_color f c) ∧
    loads (write_events (colors_mem base cs) f base count s) = color_loads base count ∧
    (∀ a ∈ loads (write_events (colors_mem base cs) f base count s),
      base ≤ a ∧ a < base + 3 * count) ∧
    (∀ k, k ≤ count → ∀ s0 : State, s0.ptr = base →
      (led_strip_loop (colors_mem base cs) f k s0).ptr = base + 3 * k) := by
  obtain ⟨h1, h2, _⟩ := loop_events_buffer f base cs hfit count 0 s.cycles
    [Event.sei, Event.delay_us 50] (by omega)
  simp only [Nat.mul_zero, Nat.add_zero, List.drop_zero] at h1 h2
  have hp : pulses (write_events (colors_mem base cs) f base count s)
      = encode_colors f (cs.take count) := by
    unfold write_events
    rw [led_strip_write_emitted]
    simp only [List.append_assoc, List.cons_append, List.nil_append]
    simp only [pulses]
    rw [h1]; simp [pulses]
  have hl : loads (write_events (colors_mem base cs) f base count s)
      = color_loads base count := by
    unfold write_events
    rw [led_strip_write_emitted]
    simp only [List.append_assoc, List.cons_append, List.nil_append]
    simp only [loads]
    rw [h2]; simp [loads]
  refine ⟨hp, ?_, ?_, hl, ?_, ?_⟩
  · rw [hp, length_encode_colors, List.length_take, Nat.min_eq_left hc]
  · intro k c hk hck
    rw [hp]
    apply encode_colors_group
    rw [List.getElem?_take_of_lt hk]
    exact hck
  · intro a ha
    rw [hl] at ha
    exact color_loads_bound _ _ _ ha
  · intro k hk s0 hs0
    rw [(led_strip_loop_run _ f k s0).2.2.1, hs0]
    have := (loop_events_buffer f base cs hfit k 0 0 [] (by omega)).2.2
    simpa using this

/-- Witness of C9: a two-color buffer at address 256, both colors sent, 16 MHz. -/
theorem led_strip_write_sends_buffer_witness :
    2 ≤ ([{ red := 255, green := 0, blue := 0 }, { red := 1, green := 2, blue := 3 }] :
      List rgb_color).length ∧
    256 + 3 * ([{ red := 255, green := 0, blue := 0 }, { red := 1, green := 2, blue := 3 }] :
      List rgb_color).length < 65536 ∧
    pulses (write_events
        (colors_mem 256 [{ red := 255, green := 0, blue := 0 }, { red := 1, green := 2, blue := 3 }])
        Clock.mhz16 256 2 idle)
      = encode_colors Clock.mhz16
          (([{ red := 255, green := 0, blue := 0 }, { red := 1, green := 2, blue := 3 }] :
            List rgb_color).take 2) :=
  ⟨by decide, by decide,
    (led_strip_write_sends_buffer Clock.mhz16 256
      [{ red := 255, green := 0, blue := 0 }, { red := 1, green := 2, blue := 3 }] 2 idle
      (by decide) (by decide)).1⟩

end Lights
